import Mathlib

/-!
Verification of the owllama interactive chat client.

The Go sources model strings as byte sequences; here text is modelled as
`List Char` (all markers and command tokens involved are ASCII, so char
positions coincide with byte positions for every index computation the
code performs), except in the history-listing component, where Go's
byte-based `len`/slicing is observable on multi-byte input and the model
therefore works on UTF-8 byte lists.
-/

namespace Owllama

/-- Text, modelled as a list of characters. -/
abbrev Str := List Char

/-- Test whether `pat` is an initial segment of `s` (argument order: `leadsWith pat s`). -/
def leadsWith : Str → Str → Bool
  | [], _ => true
  | _ :: _, [] => false
  | a :: as, b :: bs => a = b && leadsWith as bs

/-- Model of Go `strings.Index(hay, pat)`: the first
position at which `pat` occurs in `hay` (`none` models `-1`). -/
def strIndex (hay pat : Str) : Option Nat :=
  if leadsWith pat hay then some 0
  else match hay with
    | [] => none
    | _ :: t => (strIndex t pat).map (· + 1)

/-- Go `strings.Contains(s, sub)`. -/
def containsStr (s sub : Str) : Bool :=
  (strIndex s sub).isSome

/-- Go `unicode.IsSpace`: the Unicode white-space runes. -/
def goIsSpace (c : Char) : Bool :=
  c.val.toNat = 9 || c.val.toNat = 10 || c.val.toNat = 11 || c.val.toNat = 12 ||
  c.val.toNat = 13 || c.val.toNat = 32 || c.val.toNat = 0x85 || c.val.toNat = 0xA0 ||
  c.val.toNat = 0x1680 || (0x2000 ≤ c.val.toNat && c.val.toNat ≤ 0x200A) ||
  c.val.toNat = 0x2028 || c.val.toNat = 0x2029 || c.val.toNat = 0x202F ||
  c.val.toNat = 0x205F || c.val.toNat = 0x3000

/-- Go `strings.TrimSpace`: drop leading and trailing white space. -/
def trimSpace (s : Str) : Str :=
  ((s.dropWhile goIsSpace).reverse.dropWhile goIsSpace).reverse

/-! ## Response Decoder (`ollamaChatAPI` response loop / the chat loop in `owllama.go`)

One response-body line either fails to parse as a chunk (`none`, Go's
`json.Unmarshal` error, which the code skips with `continue`) or parses
to a `ChatChunk`. -/

/-- The `message` object of a wire chunk: `{role, content}`. -/
structure ChunkMsg where
  role : Str
  content : Str
deriving DecidableEq

/-- One parsed line of the response body: `{message: {role, content}, done}`. -/
structure ChatChunk where
  message : ChunkMsg
  done : Bool
deriving DecidableEq

/-- The role string `"assistant"` compared against by the decoder. -/
def roleAssistant : Str := "assistant".toList

/-- The decode loop of `ollamaChatAPI` (and of the `chat` case in
`owllama.go`): scan lines top to bottom, skip lines that do not parse,
append the content of assistant-role chunks to the accumulator, and
break right after processing the first chunk with `done = true`. -/
def decodeLines : List (Option ChatChunk) → Str
  | [] => []
  | none :: rest => decodeLines rest
  | some c :: rest =>
      (if c.message.role = roleAssistant then c.message.content else []) ++
      (if c.done then [] else decodeLines rest)

/-- Spec-side helper: the chunks that parsed, truncated after the first
chunk whose `done` field is true (that chunk included). -/
def parsedUpToDone : List (Option ChatChunk) → List ChatChunk
  | [] => []
  | none :: rest => parsedUpToDone rest
  | some c :: rest => if c.done then [c] else c :: parsedUpToDone rest

/-- Spec-side helper: in-order, separator-free concatenation of the
contents of the assistant-role chunks. -/
def assistantConcat (cs : List ChatChunk) : Str :=
  (cs.filterMap
    (fun c => if c.message.role = roleAssistant then some c.message.content else none)).flatten

/-! ## Think-Block Filter (`filterQwenThink`) -/

/-- The start marker `"<think>"` (7 characters). -/
def thinkOpen : Str := "<think>".toList

/-- The end marker `"</think>"` (8 characters). -/
def thinkClose : Str := "</think>".toList

/-- One iteration of the removal loop of `filterQwenThink`:
`start := strings.Index(text, "<think>")`, `end := strings.Index(text,
"</think>")`; when both are found and `end > start` the code replaces
`text` with `text[:start] + text[end+7:]` (note: `end+7`, exactly as in
the source) and loops; otherwise it breaks (`none`). -/
def thinkStep (t : Str) : Option Str :=
  match strIndex t thinkOpen, strIndex t thinkClose with
  | some s, some e => if s < e then some (t.take s ++ t.drop (e + 7)) else none
  | _, _ => none

/-- The removal loop, by fuel; `t.length` fuel always suffices because
each iteration strictly shortens the text. -/
def thinkLoop : Nat → Str → Str
  | 0, t => t
  | n + 1, t =>
      match thinkStep t with
      | none => t
      | some t' => thinkLoop n t'

/-- Transcription of `filterQwenThink(model, text)`: pass text through unchanged unless
the model identifier contains `"qwen3"`; otherwise run the removal loop
to completion. -/
def filterQwenThink (model text : Str) : Str :=
  if containsStr model "qwen3".toList then thinkLoop text.length text else text

/-! ### Facts about the filter loop -/

theorem leadsWith_length {pat s : Str} (h : leadsWith pat s = true) :
    pat.length ≤ s.length := by
  induction pat generalizing s with
  | nil => simp
  | cons a as ih =>
    cases s with
    | nil => simp [leadsWith] at h
    | cons b bs =>
      simp only [leadsWith, Bool.and_eq_true] at h
      simpa using Nat.succ_le_succ (ih h.2)

theorem strIndex_length {hay pat : Str} {i : Nat} (h : strIndex hay pat = some i) :
    i + pat.length ≤ hay.length := by
  induction hay generalizing i with
  | nil =>
    rw [strIndex] at h
    split at h
    · next hl =>
      obtain rfl : (0 : Nat) = i := Option.some.inj h
      simpa using leadsWith_length hl
    · simp at h
  | cons b bs ih =>
    rw [strIndex] at h
    split at h
    · next hl =>
      obtain rfl : (0 : Nat) = i := Option.some.inj h
      simpa using leadsWith_length hl
    · simp only [Option.map_eq_some'] at h
      obtain ⟨j, hj, rfl⟩ := h
      have := ih hj
      simp only [List.length_cons]
      omega

/-- Each fired iteration of the removal loop strictly shortens the text:
the guard `end > start` forces the removed span `[start, end+7)` to be
non-empty. -/
theorem thinkStep_shrink {t t' : Str} (h : thinkStep t = some t') :
    t'.length < t.length := by
  unfold thinkStep at h
  split at h
  · next s e hs he =>
    split at h
    · next hlt =>
      obtain rfl := Option.some.inj h
      have h1 : s + thinkOpen.length ≤ t.length := strIndex_length hs
      have h2 : e + thinkClose.length ≤ t.length := strIndex_length he
      have ho : thinkOpen.length = 7 := by decide
      have hc : thinkClose.length = 8 := by decide
      rw [ho] at h1
      rw [hc] at h2
      simp only [List.length_append, List.length_take, List.length_drop]
      omega
    · simp at h
  · simp at h

/-- Fuel equal to the text length always suffices: the loop has reached
a fixed point when the fuel is spent. -/
theorem thinkLoop_fix : ∀ n t, t.length ≤ n → thinkStep (thinkLoop n t) = none := by
  intro n
  induction n with
  | zero =>
    intro t ht
    have h0 : t = [] := List.length_eq_zero.mp (Nat.le_zero.mp ht)
    subst h0
    decide
  | succ n ih =>
    intro t ht
    rw [thinkLoop]
    cases h : thinkStep t with
    | none => exact h
    | some t' =>
      have := thinkStep_shrink h
      exact ih t' (by omega)

/-! ## Claim theorems for the decoder and the filter -/

/-- C1: the Response Decoder returns the in-order, separator-free
concatenation of the contents of the assistant-role chunks among the
lines that parse, scanning top to bottom, skipping lines that fail to
parse and stopping at the first chunk with `done = true`; when nothing
parses or no assistant content exists this concatenation is empty, and
no error is possible (the decoder is a total function into `Str`). -/
theorem decoder_assistant_concat (lines : List (Option ChatChunk)) :
    decodeLines lines = assistantConcat (parsedUpToDone lines) := by
  induction lines with
  | nil => rfl
  | cons hd tl ih =>
    cases hd with
    | none => simpa [decodeLines, parsedUpToDone] using ih
    | some c =>
      by_cases hdn : c.done
      · by_cases hr : c.message.role = roleAssistant
        · simp [decodeLines, parsedUpToDone, assistantConcat, hdn, hr]
        · simp [decodeLines, parsedUpToDone, assistantConcat, hdn, hr]
      · by_cases hr : c.message.role = roleAssistant
        · simp [decodeLines, parsedUpToDone, assistantConcat, hdn, hr] at ih ⊢
          exact ih
        · simp [decodeLines, parsedUpToDone, assistantConcat, hdn, hr] at ih ⊢
          exact ih

/-- C2 (code evaluation at the failing input): on a qwen3 model the
filter maps `"A<think>B</think>C"` to `"A>C"`, not `"AC"`: the code
removes `text[start:end+7]` although the end marker `"</think>"` is 8
characters long, so the final `'>'` of the end marker survives. The
unmatched-marker half of the claim does hold: text with a start marker
and no end marker is returned unchanged. -/
theorem filterQwenThink_failing_input :
    filterQwenThink "qwen3".toList "A<think>B</think>C".toList = "A>C".toList ∧
    "A>C".toList ≠ "AC".toList ∧
    filterQwenThink "qwen3".toList "A<think>B".toList = "A<think>B".toList := by
  refine ⟨by decide, by decide, by decide⟩

/-- C10: the Think-Block Filter terminates on every input: each
iteration of the removal loop either exits or strictly shortens the
text, and fuel equal to the initial length drives the loop to a fixed
point, so `filterQwenThink` is a total function on strings. -/
theorem filter_terminates :
    (∀ t t' : Str, thinkStep t = some t' → t'.length < t.length) ∧
    (∀ t : Str, thinkStep (thinkLoop t.length t) = none) ∧
    (∀ model t : Str, containsStr model "qwen3".toList = false →
      filterQwenThink model t = t) := by
  refine ⟨fun t t' h => thinkStep_shrink h,
          fun t => thinkLoop_fix t.length t le_rfl,
          fun model t h => ?_⟩
  simp only [filterQwenThink, h, Bool.false_eq_true, if_false]

/-- Witness for C10's theorem at a concrete input. -/
theorem filter_terminates_witness :
    thinkStep "<think>a</think>b".toList = some ">b".toList ∧
    (">b".toList).length < ("<think>a</think>b".toList).length ∧
    filterQwenThink "gemma3".toList "x<think>y</think>z".toList =
      "x<think>y</think>z".toList := by
  refine ⟨by decide,
          filter_terminates.1 "<think>a</think>b".toList ">b".toList (by decide),
          filter_terminates.2.2 "gemma3".toList "x<think>y</think>z".toList (by decide)⟩

/-! ## Chat Session Engine (the `chat` loop of `owllama.go`, and the
identical core of `handleChat` in the refactored variant; the
variant-only `/edit`, `/vi` and `/search` commands are outside the
specified core state machine and are not modelled). -/

/-- A role/content pair: both the `map[string]string` context entries
and the `ChatMessage` transcript entries have this shape. -/
structure Msg where
  role : Str
  content : Str
deriving DecidableEq

/-- The role string `"user"`. -/
def roleUser : Str := "user".toList

/-- The role string `"ollama"` that the code stores for model replies in
the session transcript (`ChatMessage{Role: "ollama", ...}`). -/
def roleOllama : Str := "ollama".toList

/-- The exit token `"/exit"`. -/
def exitTok : Str := "/exit".toList

/-- The clear-context token `"/clear"`. -/
def clearTok : Str := "/clear".toList

/-- The mutable state of one chat session: the live request context
(`messages`) and the durable transcript (`session.Messages`). -/
structure EngineState where
  messages : List Msg
  session : List Msg
deriving DecidableEq

/-- The outcome of the turn's HTTP call: `fail` covers both a transport
error from `http.DefaultClient.Do` and a non-200 status (both paths
report the error and `continue`); `success r` carries the decoded
response text. -/
inductive Outcome where
  | fail : Outcome
  | success : Str → Outcome
deriving DecidableEq

/-- One loop iteration's input: the raw line read from the user and the
outcome the endpoint would deliver were a request issued. -/
structure Event where
  raw : Str
  out : Outcome
deriving DecidableEq

/-- A trimmed input is a genuine conversational turn when it is neither
the exit token, nor the clear token, nor empty. -/
def isTurn (p : Str) : Bool :=
  !(p = exitTok) && !(p = clearTok) && !(p = [])

/-- One iteration of the chat loop body (the raw input is trimmed
first, as by `strings.TrimSpace`): `/clear` empties the context and
touches nothing else; empty input changes nothing; a turn appends the
user message to the context, and on success appends the assistant
message to the context and the `"user"`/`"ollama"` pair to the
transcript, while on failure it leaves the context holding the dangling
user message and the transcript untouched. Exit is handled by
`chatRun`; on an exit token this function is the identity. -/
def chatStep (s : EngineState) (e : Event) : EngineState :=
  let p := trimSpace e.raw
  if p = exitTok then s
  else if p = clearTok then { s with messages := [] }
  else if p = [] then s
  else
    match e.out with
    | .fail => { s with messages := s.messages ++ [⟨roleUser, p⟩] }
    | .success r =>
        { messages := s.messages ++ [⟨roleUser, p⟩, ⟨roleAssistant, r⟩],
          session := s.session ++ [⟨roleUser, p⟩, ⟨roleOllama, r⟩] }

/-- The chat loop: consume events until the exit token (or the end of
input, modelling EOF), threading the state through `chatStep`. -/
def chatRun (s : EngineState) : List Event → EngineState
  | [] => s
  | e :: rest =>
      if trimSpace e.raw = exitTok then s
      else chatRun (chatStep s e) rest

/-- The (trimmed prompt, response) pairs of the successful genuine turns
of an event list, up to the exit token. -/
def turnPairs : List Event → List (Str × Str)
  | [] => []
  | e :: rest =>
      let p := trimSpace e.raw
      if p = exitTok then []
      else if isTurn p then
        match e.out with
        | .success r => (p, r) :: turnPairs rest
        | .fail => turnPairs rest
      else turnPairs rest

/-- No clear-context command occurs before the exit token. -/
def noClear : List Event → Bool
  | [] => true
  | e :: rest =>
      let p := trimSpace e.raw
      if p = exitTok then true
      else !(p = clearTok) && noClear rest

/-- Every genuine turn before the exit token has a successful outcome. -/
def allSuccess : List Event → Bool
  | [] => true
  | e :: rest =>
      let p := trimSpace e.raw
      if p = exitTok then true
      else if isTurn p then
        (match e.out with
         | .success _ => true
         | .fail => false) && allSuccess rest
      else allSuccess rest

/-- The context a run produces from an empty context: the user/assistant
pair of each successful turn, in order. -/
def contextOf (prs : List (Str × Str)) : List Msg :=
  prs.flatMap (fun pr => [⟨roleUser, pr.1⟩, ⟨roleAssistant, pr.2⟩])

theorem chatRun_messages (evs : List Event) :
    ∀ ms tr : List Msg, noClear evs = true → allSuccess evs = true →
      (chatRun ⟨ms, tr⟩ evs).messages = ms ++ contextOf (turnPairs evs) := by
  induction evs with
  | nil => intro ms tr _ _; simp [chatRun, turnPairs, contextOf]
  | cons e rest ih =>
    intro ms tr hnc has
    by_cases hx : trimSpace e.raw = exitTok
    · simp [chatRun, turnPairs, hx, contextOf]
    · rw [noClear] at hnc
      rw [allSuccess] at has
      simp only [hx, if_false, Bool.and_eq_true] at hnc
      by_cases hc : trimSpace e.raw = clearTok
      · simp [hc] at hnc
      · by_cases he : trimSpace e.raw = []
        · have ht : isTurn (trimSpace e.raw) = false := by
            simp [isTurn, he]
          simp only [hx, if_false, ht, Bool.false_eq_true, if_neg] at has
          rw [chatRun, if_neg hx, turnPairs, if_neg hx]
          simp only [ht, Bool.false_eq_true, if_neg, if_false]
          have hstep : chatStep ⟨ms, tr⟩ e = ⟨ms, tr⟩ := by
            simp only [chatStep, he]
            simp
            exact fun h1 hcl => absurd hcl (by decide)
          rw [hstep]
          exact ih ms tr hnc.2 has
        · have ht : isTurn (trimSpace e.raw) = true := by
            simp [isTurn, hx, hc, he]
          simp only [hx, if_false, ht, if_true, Bool.and_eq_true] at has
          cases ho : e.out with
          | fail => rw [ho] at has; simp at has
          | success r =>
            rw [ho] at has
            rw [chatRun, if_neg hx, turnPairs, if_neg hx]
            simp only [ht, if_true, ho]
            have hstep : chatStep ⟨ms, tr⟩ e =
                ⟨ms ++ [⟨roleUser, trimSpace e.raw⟩, ⟨roleAssistant, r⟩],
                 tr ++ [⟨roleUser, trimSpace e.raw⟩, ⟨roleOllama, r⟩]⟩ := by
              simp [chatStep, hx, hc, he, ho]
            rw [hstep]
            rw [ih _ _ hnc.2 has.2]
            simp [contextOf]

/-- C3: in a failure-free stretch with no clear command, a run starting
from an empty context (session start, or the state right after a clear)
leaves the context holding exactly the user/assistant pair of each of
the `T` successful turns, in chronological order — `2T` messages,
alternating user then assistant — so requests issued after a clear carry
only messages of turns after the clear; and the clear command itself
empties the context immediately. -/
theorem context_accumulation (evs : List Event) (tr : List Msg)
    (hnc : noClear evs = true) (has : allSuccess evs = true) :
    (chatRun ⟨[], tr⟩ evs).messages = contextOf (turnPairs evs) ∧
    (chatRun ⟨[], tr⟩ evs).messages.length = 2 * (turnPairs evs).length ∧
    (∀ s : EngineState, ∀ o : Outcome, ∀ raw : Str, trimSpace raw = clearTok →
      (chatStep s ⟨raw, o⟩).messages = []) := by
  refine ⟨by simpa using chatRun_messages evs [] tr hnc has, ?_, ?_⟩
  · rw [(chatRun_messages evs [] tr hnc has : _)]
    simp only [List.nil_append, contextOf]
    induction turnPairs evs with
    | nil => simp
    | cons pr prs ih => simp [List.flatMap_cons, ih]; ring
  · intro s o raw hraw
    simp only [chatStep, hraw]
    simp
    rw [if_neg (by decide : ¬(clearTok = exitTok))]

/-- Witness for C3's theorem: two successful turns, an ignored blank
line in between. -/
theorem context_accumulation_witness :
    (chatRun ⟨[], []⟩
      [⟨"hi".toList, .success "there".toList⟩,
       ⟨"   ".toList, .fail⟩,
       ⟨"more".toList, .success "ok".toList⟩]).messages =
      contextOf (turnPairs
        [⟨"hi".toList, .success "there".toList⟩,
         ⟨"   ".toList, .fail⟩,
         ⟨"more".toList, .success "ok".toList⟩]) := by
  exact (context_accumulation _ [] (by decide) (by decide)).1

theorem isTurn_iff {p : Str} : isTurn p = true ↔ p ≠ exitTok ∧ p ≠ clearTok ∧ p ≠ [] := by
  simp [isTurn, and_assoc]

/-- Count of messages carrying a given role. -/
def countRole (r : Str) (ms : List Msg) : Nat :=
  (ms.filter (fun m => m.role == r)).length

theorem countRole_append (r : Str) (a b : List Msg) :
    countRole r (a ++ b) = countRole r a + countRole r b := by
  simp [countRole, List.filter_append]

/-- C4: when the turn's request fails (transport error or non-200
status) the error path `continue`s: the transcript is unchanged and the
context holds the dangling user message of the failed attempt with no
assistant message for it; a following successful turn then appends
exactly one further assistant message (the context gains the new user
message and a single assistant message, on top of the still-present
failed user message). -/
theorem failed_turn_noncorruption (s : EngineState) (p q r : Str)
    (hp : isTurn (trimSpace p) = true) (hq : isTurn (trimSpace q) = true) :
    (chatStep s ⟨p, .fail⟩).session = s.session ∧
    (chatStep s ⟨p, .fail⟩).messages = s.messages ++ [⟨roleUser, trimSpace p⟩] ∧
    (chatStep (chatStep s ⟨p, .fail⟩) ⟨q, .success r⟩).messages =
      s.messages ++ [⟨roleUser, trimSpace p⟩, ⟨roleUser, trimSpace q⟩,
        ⟨roleAssistant, r⟩] ∧
    countRole roleAssistant
        (chatStep (chatStep s ⟨p, .fail⟩) ⟨q, .success r⟩).messages =
      countRole roleAssistant s.messages + 1 := by
  obtain ⟨hp1, hp2, hp3⟩ := isTurn_iff.mp hp
  obtain ⟨hq1, hq2, hq3⟩ := isTurn_iff.mp hq
  have hstep1 : chatStep s ⟨p, .fail⟩ =
      ⟨s.messages ++ [⟨roleUser, trimSpace p⟩], s.session⟩ := by
    simp [chatStep, hp1, hp2, hp3]
  have hstep2 : chatStep (chatStep s ⟨p, .fail⟩) ⟨q, .success r⟩ =
      ⟨s.messages ++ [⟨roleUser, trimSpace p⟩, ⟨roleUser, trimSpace q⟩,
        ⟨roleAssistant, r⟩],
       s.session ++ [⟨roleUser, trimSpace q⟩, ⟨roleOllama, r⟩]⟩ := by
    rw [hstep1]
    simp [chatStep, hq1, hq2, hq3]
  refine ⟨by rw [hstep1], by rw [hstep1], by rw [hstep2], ?_⟩
  rw [hstep2]
  show countRole roleAssistant (s.messages ++ _) = _
  rw [countRole_append]
  have : countRole roleAssistant
      [⟨roleUser, trimSpace p⟩, ⟨roleUser, trimSpace q⟩, ⟨roleAssistant, r⟩] = 1 := by
    simp [countRole, List.filter,
      (by decide : (roleUser == roleAssistant) = false),
      (by decide : (roleAssistant == roleAssistant) = true)]
  rw [this]

/-- Witness for C4's theorem at a concrete state and turn. -/
theorem failed_turn_noncorruption_witness :
    (chatStep ⟨[], []⟩ ⟨"hi".toList, .fail⟩).session = [] ∧
    (chatStep ⟨[], []⟩ ⟨"hi".toList, .fail⟩).messages =
      [] ++ [⟨roleUser, trimSpace "hi".toList⟩] ∧
    (chatStep (chatStep ⟨[], []⟩ ⟨"hi".toList, .fail⟩)
        ⟨"hi again".toList, .success "yo".toList⟩).messages =
      [] ++ [⟨roleUser, trimSpace "hi".toList⟩,
        ⟨roleUser, trimSpace "hi again".toList⟩,
        ⟨roleAssistant, "yo".toList⟩] ∧
    countRole roleAssistant
        (chatStep (chatStep ⟨[], []⟩ ⟨"hi".toList, .fail⟩)
          ⟨"hi again".toList, .success "yo".toList⟩).messages =
      countRole roleAssistant [] + 1 :=
  failed_turn_noncorruption ⟨[], []⟩ "hi".toList "hi again".toList "yo".toList
    (by decide) (by decide)

/-- The text the code prints for a successful turn, before terminal
rendering: `printText := filterQwenThink(model, responseText)`. -/
def printedText (model resp : Str) : Str := filterQwenThink model resp

/-- C6: on a successful turn the message stored in the context and the
message stored in the transcript both carry the full decoded response
text `r`, unfiltered — `chatStep` does not even depend on the model
identifier — while the displayed text is the filter's output. -/
theorem stored_text_unfiltered (s : EngineState) (model p r : Str)
    (hp : isTurn (trimSpace p) = true) :
    (chatStep s ⟨p, .success r⟩).messages =
      s.messages ++ [⟨roleUser, trimSpace p⟩, ⟨roleAssistant, r⟩] ∧
    (chatStep s ⟨p, .success r⟩).session =
      s.session ++ [⟨roleUser, trimSpace p⟩, ⟨roleOllama, r⟩] ∧
    printedText model r = filterQwenThink model r := by
  obtain ⟨hp1, hp2, hp3⟩ := isTurn_iff.mp hp
  have hstep : chatStep s ⟨p, .success r⟩ =
      ⟨s.messages ++ [⟨roleUser, trimSpace p⟩, ⟨roleAssistant, r⟩],
       s.session ++ [⟨roleUser, trimSpace p⟩, ⟨roleOllama, r⟩]⟩ := by
    simp [chatStep, hp1, hp2, hp3]
  exact ⟨by rw [hstep], by rw [hstep], rfl⟩

/-- Witness for C6's theorem: a qwen3 turn whose displayed text differs
from the stored text, which stays unfiltered. -/
theorem stored_text_unfiltered_witness :
    ((chatStep ⟨[], []⟩ ⟨"hi".toList, .success "<think>x</think>ok".toList⟩).messages =
      [] ++ [⟨roleUser, trimSpace "hi".toList⟩,
        ⟨roleAssistant, "<think>x</think>ok".toList⟩] ∧
     (chatStep ⟨[], []⟩ ⟨"hi".toList, .success "<think>x</think>ok".toList⟩).session =
      [] ++ [⟨roleUser, trimSpace "hi".toList⟩,
        ⟨roleOllama, "<think>x</think>ok".toList⟩] ∧
     printedText "qwen3".toList "<think>x</think>ok".toList =
       filterQwenThink "qwen3".toList "<think>x</think>ok".toList) ∧
    filterQwenThink "qwen3".toList "<think>x</think>ok".toList ≠
      "<think>x</think>ok".toList :=
  ⟨stored_text_unfiltered ⟨[], []⟩ "qwen3".toList "hi".toList
      "<think>x</think>ok".toList (by decide),
   by decide⟩

/-- The transcript part of one loop iteration: it is either untouched
or extended by a `"user"`/`"ollama"` pair. -/
theorem chatStep_session_cases (s : EngineState) (e : Event) :
    (chatStep s e).session = s.session ∨
    ∃ r, e.out = .success r ∧
      (chatStep s e).session =
        s.session ++ [⟨roleUser, trimSpace e.raw⟩, ⟨roleOllama, r⟩] := by
  have d1 : (clearTok = exitTok) = False := eq_false (by decide)
  have d2 : (exitTok = ([] : Str)) = False := eq_false (by decide)
  have d3 : (clearTok = ([] : Str)) = False := eq_false (by decide)
  by_cases hx : trimSpace e.raw = exitTok
  · left; simp [chatStep, hx]
  · by_cases hc : trimSpace e.raw = clearTok
    · left; simp [chatStep, hx, hc, d1]
    · by_cases he : trimSpace e.raw = []
      · left; simp [chatStep, hx, hc, he, d2, d3]
      · cases ho : e.out with
        | fail => left; simp [chatStep, hx, hc, he, ho]
        | success r =>
            right; exact ⟨r, rfl, by simp [chatStep, hx, hc, he, ho]⟩

/-- C7 counterexample: after one completed successful turn from a fresh
state, the model reply stored in the Session transcript carries role
`"ollama"` — a role that is neither `"user"` nor `"assistant"`, so the
transcript does not stay inside the data model's `{user, assistant}`
role enum. -/
theorem transcript_role_counterex :
    (chatStep ⟨[], []⟩ ⟨"hi".toList, .success "yo".toList⟩).session =
      [⟨roleUser, "hi".toList⟩, ⟨roleOllama, "yo".toList⟩] ∧
    roleOllama ≠ roleAssistant ∧ roleOllama ≠ roleUser := by
  refine ⟨by decide, by decide, by decide⟩

/-- C7 amended: every message ever appended to a Session transcript has
role `"user"` or `"ollama"`, and each completed successful turn appends
one `"user"`-role message followed by one `"ollama"`-role message. -/
theorem transcript_roles (s : EngineState) (e : Event)
    (hinv : ∀ m ∈ s.session, m.role = roleUser ∨ m.role = roleOllama) :
    (∀ m ∈ (chatStep s e).session, m.role = roleUser ∨ m.role = roleOllama) ∧
    (∀ r : Str, isTurn (trimSpace e.raw) = true → e.out = .success r →
      (chatStep s e).session =
        s.session ++ [⟨roleUser, trimSpace e.raw⟩, ⟨roleOllama, r⟩]) := by
  constructor
  · rcases chatStep_session_cases s e with h | ⟨r, _, h⟩
    · rw [h]; exact hinv
    · rw [h]
      intro m hm
      rcases List.mem_append.mp hm with hm | hm
      · exact hinv m hm
      · have hmm : m = ⟨roleUser, trimSpace e.raw⟩ ∨ m = ⟨roleOllama, r⟩ := by
          simpa using hm
        rcases hmm with rfl | rfl
        · exact Or.inl rfl
        · exact Or.inr rfl
  · intro r ht ho
    obtain ⟨h1, h2, h3⟩ := isTurn_iff.mp ht
    simp [chatStep, h1, h2, h3, ho]

/-! ## Session History Store -/

/-- A persisted chat session: `{session_key, messages}`. -/
structure ChatSession where
  sessionKey : Str
  messages : List Msg
deriving DecidableEq

/-- The `userInputFound` scan run at session termination: some transcript
message has role `"user"` and content that is non-empty after
`strings.TrimSpace` (the Go loop breaks at the first such message;
`List.any` has the same value). -/
def userInputFound (msgs : List Msg) : Bool :=
  msgs.any (fun m => m.role == roleUser && !(trimSpace m.content == []))

/-- Session termination: append the finished session to the history and
save — Go writes `chatHistory` back to the file — only when
`userInputFound` holds; otherwise the history value is left as loaded
and nothing is written. Save/load themselves are modelled as the
identity on the history value (file I/O is an external collaborator). -/
def finalizeSession (hist : List ChatSession) (s : ChatSession) : List ChatSession :=
  if userInputFound s.messages then hist ++ [s] else hist

theorem userInputFound_iff (msgs : List Msg) :
    userInputFound msgs = true ↔
      ∃ m ∈ msgs, m.role = roleUser ∧ trimSpace m.content ≠ [] := by
  simp [userInputFound, List.any_eq_true]

theorem append_singleton_ne (hist : List ChatSession) (s : ChatSession) :
    hist ++ [s] ≠ hist := by
  intro h
  have hl := congrArg List.length h
  simp at hl

/-- C5: the finished session is appended (and the history re-saved) if
and only if it holds at least one user message that is non-empty after
trimming; a session with no such message is never appended, so the
history loaded after such a run has the same number of sessions as
before it. -/
theorem history_excludes_empty_sessions (hist : List ChatSession) (s : ChatSession) :
    (finalizeSession hist s = hist ++ [s] ↔
      ∃ m ∈ s.messages, m.role = roleUser ∧ trimSpace m.content ≠ []) ∧
    (finalizeSession hist s = hist ↔
      ¬∃ m ∈ s.messages, m.role = roleUser ∧ trimSpace m.content ≠ []) ∧
    (finalizeSession hist s).length =
      hist.length + (if userInputFound s.messages then 1 else 0) := by
  by_cases huf : userInputFound s.messages = true
  · have hP := (userInputFound_iff s.messages).mp huf
    refine ⟨iff_of_true (by simp [finalizeSession, huf]) hP,
            iff_of_false ?_ (fun hn => hn hP), by simp [finalizeSession, huf]⟩
    simp only [finalizeSession, huf, if_true]
    exact append_singleton_ne hist s
  · have hP : ¬∃ m ∈ s.messages, m.role = roleUser ∧ trimSpace m.content ≠ [] :=
      fun h => huf ((userInputFound_iff s.messages).mpr h)
    have hb : userInputFound s.messages = false := by
      cases h : userInputFound s.messages
      · rfl
      · exact absurd h huf
    refine ⟨iff_of_false ?_ hP,
            iff_of_true (by simp [finalizeSession, hb]) hP,
            by simp [finalizeSession, hb]⟩
    simp only [finalizeSession, hb, Bool.false_eq_true, if_false]
    exact fun h => append_singleton_ne hist s h.symm

/-- Witness for C7's amended theorem: one successful turn from a fresh
state appends the user/ollama pair to the transcript. -/
theorem transcript_roles_witness :
    (chatStep ⟨[], []⟩ ⟨"hi".toList, .success "yo".toList⟩).session =
      [] ++ [⟨roleUser, trimSpace "hi".toList⟩, ⟨roleOllama, "yo".toList⟩] :=
  (transcript_roles ⟨[], []⟩ ⟨"hi".toList, .success "yo".toList⟩
    (by simp)).2 "yo".toList (by decide) rfl

/-! ## History listing (`handleHistory`, subcommand `list`)

Go's `len(firstPrompt) > 40` and `firstPrompt[:40]` operate on the
string's UTF-8 bytes, not on its characters, so this component is
modelled on byte lists. -/

/-- UTF-8 encoding of one character (Go strings hold UTF-8 bytes). -/
def utf8Char (c : Char) : List Nat :=
  let v := c.val.toNat
  if v < 0x80 then [v]
  else if v < 0x800 then [0xC0 + v / 64, 0x80 + v % 64]
  else if v < 0x10000 then
    [0xE0 + v / 4096, 0x80 + v / 64 % 64, 0x80 + v % 64]
  else
    [0xF0 + v / 262144, 0x80 + v / 4096 % 64, 0x80 + v / 64 % 64, 0x80 + v % 64]

/-- UTF-8 encoding of a text. -/
def utf8 (s : Str) : List Nat := (s.map utf8Char).flatten

/-- A message at the byte level. -/
structure BMsg where
  role : List Nat
  content : List Nat
deriving DecidableEq

/-- A persisted session at the byte level. -/
structure BSession where
  sessionKey : List Nat
  messages : List BMsg
deriving DecidableEq

/-- The `firstPrompt` scan of the `list` subcommand: the content of the
first message with role `"user"`, or `""` when there is none. -/
def firstUserMsg : List BMsg → List Nat
  | [] => []
  | m :: rest => if m.role = utf8 "user".toList then m.content else firstUserMsg rest

/-- Truncation by byte count to a 40-byte bound, from the source's
check of `len(firstPrompt) > 40` followed by `firstPrompt[:40]`. -/
def truncate40 (b : List Nat) : List Nat :=
  if 40 < b.length then b.take 40 else b

/-- The `history list` output: each session's key paired with its
(possibly truncated) first user message. -/
def listSummaries (h : List BSession) : List (List Nat × List Nat) :=
  h.map (fun s => (s.sessionKey, truncate40 (firstUserMsg s.messages)))

/-- C8 counterexample: truncation is by byte count, not character
count. A first user message of 21 `'é'` characters — at most 40
characters, so by the claim it must come through unchanged — is 42
UTF-8 bytes long, and the code cuts it to its 40-byte prefix. -/
theorem summary_truncation_counterex :
    (List.replicate 21 'é').length ≤ 40 ∧
    listSummaries
        [⟨utf8 "k".toList, [⟨utf8 "user".toList, utf8 (List.replicate 21 'é')⟩]⟩] ≠
      [(utf8 "k".toList, utf8 (List.replicate 21 'é'))] := by
  refine ⟨by decide, by decide⟩

/-- C8 amended: `listSummaries` pairs each session's key with the first
user-role message's content cut deterministically by UTF-8 byte count
to a bound of 40 bytes: content longer than 40 bytes yields exactly its
40-byte prefix (which can split a multi-byte character), content at or
below 40 bytes is returned unchanged. -/
theorem summary_truncation (h : List BSession) :
    listSummaries h =
      h.map (fun s => (s.sessionKey, truncate40 (firstUserMsg s.messages))) ∧
    (∀ b : List Nat, 40 < b.length →
      truncate40 b = b.take 40 ∧ (truncate40 b).length = 40) ∧
    (∀ b : List Nat, b.length ≤ 40 → truncate40 b = b) := by
  refine ⟨rfl, fun b hb => ⟨by simp [truncate40, hb], ?_⟩, fun b hb => ?_⟩
  · simp [truncate40, hb]
    omega
  · simp [truncate40, Nat.not_lt.mpr hb]

/-- Witness for C8's amended theorem at concrete byte lists. -/
theorem summary_truncation_witness :
    truncate40 (List.replicate 41 (0 : Nat)) = (List.replicate 41 (0 : Nat)).take 40 ∧
    truncate40 [1, 2] = [1, 2] :=
  ⟨((summary_truncation []).2.1 (List.replicate 41 0) (by decide)).1,
   (summary_truncation []).2.2 [1, 2] (by decide)⟩

/-! ## Process exit statuses (C9)

Exit codes of the commands, transcribed from `owllama.go` (and
`forwardToOllama`): `0` is a normal return from `main`, `1` every
`os.Exit(1)` call. -/

/-- What opening and decoding the history file can yield: no file, a
file that does not decode, or a decoded history. -/
inductive HistFile where
  | missing : HistFile
  | corrupt : HistFile
  | ok : List ChatSession → HistFile
deriving DecidableEq

/-- Exit status of `owllama history ...` in `owllama.go`: fewer than 3
arguments or an unknown subcommand print usage and exit 1; `list` and
`view` open and decode the history file and exit 1 when it is missing
or corrupt; every remaining path (including an unknown session key,
which prints "Session not found.") ends the process with status 0. -/
def historyCmdExit (argv : List Str) (f : HistFile) : Nat :=
  if argv.length < 3 then 1
  else
    let sub := argv.getD 2 []
    if sub = "list".toList then
      match f with
      | .missing => 1
      | .corrupt => 1
      | .ok _ => 0
    else if sub = "view".toList then
      if argv.length < 4 then 1
      else
        match f with
        | .missing => 1
        | .corrupt => 1
        | .ok _ => 0
    else 1

/-- Exit status of `owllama generate <model> <prompt>`: fewer than 4
arguments exit 1 (usage), and a failed request to the inference
endpoint also exits 1. -/
def generateExit (argv : List Str) (requestOk : Bool) : Nat :=
  if argv.length < 4 then 1 else if requestOk then 0 else 1

/-- Exit status of `owllama chat <model>` in `owllama.go`: the only
`os.Exit` in the handler is the argument-count check; the session loop
reports endpoint failures and tolerates a missing or corrupt history
file and always falls through to a normal return, so the status does
not depend on the session's events. -/
def chatCmdExit (argv : List Str) (_evs : List Event) : Nat :=
  if argv.length < 3 then 1 else 0

/-- C9 counterexample: `owllama history list` has the correct argument
count — no usage error — yet terminates with status 1 when the history
file is missing, and likewise when it is corrupt; so a usage error is
not the only non-zero-exit condition, and a missing or corrupt history
file does cause one. -/
theorem exit_status_counterex :
    historyCmdExit ["owllama".toList, "history".toList, "list".toList] .missing = 1 ∧
    historyCmdExit ["owllama".toList, "history".toList, "list".toList] .corrupt = 1 ∧
    ¬ ["owllama".toList, "history".toList, "list".toList].length < 3 := by
  refine ⟨by decide, by decide, by decide⟩

/-- C9 amended: within the `chat` command, endpoint failures, malformed
network data and history-file problems never produce a non-zero exit —
only its usage check can — but wrong argument count is not the only
non-zero-exit condition of the process: `history list`/`view` exit 1
when the history file is missing or corrupt (and return 0 when it
decodes), and `generate` exits 1 when the inference request fails. -/
theorem exit_status_amended :
    (∀ argv : List Str, ∀ evs : List Event, ¬ argv.length < 3 →
      chatCmdExit argv evs = 0) ∧
    (∀ h : List ChatSession,
      historyCmdExit ["owllama".toList, "history".toList, "list".toList] (.ok h) = 0) ∧
    historyCmdExit ["owllama".toList, "history".toList, "list".toList] .missing = 1 ∧
    historyCmdExit ["owllama".toList, "history".toList, "list".toList] .corrupt = 1 ∧
    generateExit ["owllama".toList, "generate".toList, "m".toList, "p".toList] false = 1 := by
  refine ⟨fun argv evs h => by simp [chatCmdExit, h], fun h => by rfl,
          by decide, by decide, by decide⟩

/-- Witness for C9's amended theorem at a concrete argument vector. -/
theorem exit_status_amended_witness :
    chatCmdExit ["owllama".toList, "chat".toList, "gemma3".toList] [] = 0 :=
  exit_status_amended.1 ["owllama".toList, "chat".toList, "gemma3".toList] []
    (by decide)

end Owllama
